import Mathlib

/-!
Verification development for the numericcompfricas accuracy-measurement
engine.  The C core (embedded in src/fricas/commonNumericFunctions.spad)
works on IEEE-754 binary64 values; we model a double by its 64-bit
pattern and give the arithmetic operations their exact IEEE semantics
(round to nearest, ties to even) via rational arithmetic, so that every
definition is executable and concrete evaluations can be settled by
kernel computation.
-/

/-- An IEEE-754 binary64 datum, represented by its bit pattern. -/
structure Doub where
  bits : Nat
  isLt : bits < 2 ^ 64

instance : DecidableEq Doub := fun x y =>
  decidable_of_iff (x.bits = y.bits) (by cases x; cases y; simp)

/-- Build a double from a bit pattern (wrapping modulo 2^64, as a
reinterpretation of a uint64 would). -/
def Doub.ofBits (n : Nat) : Doub :=
  ⟨n % 2 ^ 64, Nat.mod_lt _ (by norm_num)⟩

/-- Sign bit. -/
def Doub.sgn (x : Doub) : Nat := x.bits / 2 ^ 63

/-- Biased exponent field (11 bits). -/
def Doub.expField (x : Doub) : Nat := x.bits / 2 ^ 52 % 2 ^ 11

/-- Mantissa field (52 bits). -/
def Doub.mantField (x : Doub) : Nat := x.bits % 2 ^ 52

def Doub.isNeg (x : Doub) : Bool := x.sgn = 1

def Doub.isNaN (x : Doub) : Bool := x.expField = 2047 && x.mantField ≠ 0

def Doub.isInf (x : Doub) : Bool := x.expField = 2047 && x.mantField = 0

def Doub.isFinite (x : Doub) : Bool := x.expField ≠ 2047

def Doub.isZero (x : Doub) : Bool := x.expField = 0 && x.mantField = 0

def pzero : Doub := Doub.ofBits 0
def mzero : Doub := Doub.ofBits 0x8000000000000000
def pinf : Doub := Doub.ofBits 0x7FF0000000000000
def minf : Doub := Doub.ofBits 0xFFF0000000000000
/-- The canonical quiet NaN that x86/ARM produce for invalid operations. -/
def qnan : Doub := Doub.ofBits 0x7FF8000000000000

/-- The dyadic rational n * 2^e. -/
def dy (n : Int) (e : Int) : Rat :=
  if 0 ≤ e then mkRat (n * (2 ^ e.toNat : Nat)) 1 else mkRat n (2 ^ (-e).toNat)

/-- Exact rational value of a finite double (junk 0 on NaN/Inf patterns,
which every consumer rules out first). -/
def Doub.toRat (x : Doub) : Rat :=
  let s : Int := if x.isNeg then -1 else 1
  if x.expField = 0 then dy (s * x.mantField) (-1074)
  else dy (s * (2 ^ 52 + x.mantField)) ((x.expField : Int) - 1075)

/-- Fueled binary logarithm (floor of log2); fuel 8192 covers every
number that can arise from binary64 arithmetic. -/
def log2F : Nat → Nat → Nat
  | 0, _ => 0
  | fuel + 1, n => if n < 2 then 0 else log2F fuel (n / 2) + 1

/-- Is 2^e ≤ n/d (n, d positive)? -/
def pow2Le (e : Int) (n d : Nat) : Bool :=
  if 0 ≤ e then d * 2 ^ e.toNat ≤ n else d ≤ n * 2 ^ (-e).toNat

/-- Floor of log2 of the positive rational n/d. -/
def ratLog2 (n d : Nat) : Int :=
  let e0 : Int := (log2F 8192 n : Int) - (log2F 8192 d : Int)
  if pow2Le e0 n d then e0 else e0 - 1

/-- Round N/D to the nearest natural, ties to even. -/
def rhe (N D : Nat) : Nat :=
  let t := N / D
  let r := N % D
  if D < 2 * r then t + 1
  else if 2 * r < D then t
  else if t % 2 = 1 then t + 1 else t

/-- Bit pattern (sign bit cleared) of the binary64 nearest to the
positive rational n/d: round to nearest, ties to even, subnormals and
overflow to infinity included. -/
def flPosBits (n d : Nat) : Nat :=
  let e := ratLog2 n d
  let E : Int := max e (-1022)
  let g : Int := E - 52
  let N := if g ≤ 0 then n * 2 ^ (-g).toNat else n
  let D := if g ≤ 0 then d else d * 2 ^ g.toNat
  let m0 := rhe N D
  let m := if m0 = 2 ^ 53 then 2 ^ 52 else m0
  let E1 := if m0 = 2 ^ 53 then E + 1 else E
  if m = 0 then 0
  else if 1023 < E1 then 0x7FF0000000000000
  else if m < 2 ^ 52 then m
  else (E1 + 1023).toNat * 2 ^ 52 + (m - 2 ^ 52)

/-- Round a rational to binary64 (round to nearest, ties to even). -/
def fl (q : Rat) : Doub :=
  if q = 0 then pzero
  else if q < 0 then Doub.ofBits (2 ^ 63 + flPosBits q.num.natAbs q.den)
  else Doub.ofBits (flPosBits q.num.natAbs q.den)

/-- IEEE negation: flip the sign bit. -/
def negD (x : Doub) : Doub :=
  Doub.ofBits (if x.isNeg then x.bits - 2 ^ 63 else x.bits + 2 ^ 63)

/-- Clear the sign bit (fabs / copysign(v, +1), also on NaNs). -/
def absD (x : Doub) : Doub := ⟨x.bits % 2 ^ 63, by
  exact lt_trans (Nat.mod_lt _ (by norm_num)) (by norm_num)⟩

/-- IEEE binary64 addition (round to nearest even; an exact zero sum of
nonzero operands is +0, and (+0) + (-0) = +0). -/
def addD (x y : Doub) : Doub :=
  if x.isNaN || y.isNaN then qnan
  else if x.isInf then
    if y.isInf && (x.isNeg ≠ y.isNeg) then qnan else x
  else if y.isInf then y
  else if x.isZero && y.isZero then
    if x.isNeg && y.isNeg then mzero else pzero
  else
    let s := x.toRat + y.toRat
    if s = 0 then pzero else fl s

/-- IEEE binary64 subtraction, x - y = x + (-y). -/
def subD (x y : Doub) : Doub := addD x (negD y)

/-- IEEE binary64 multiplication. -/
def mulD (x y : Doub) : Doub :=
  if x.isNaN || y.isNaN then qnan
  else if x.isInf || y.isInf then
    if x.isZero || y.isZero then qnan
    else if x.isNeg ≠ y.isNeg then minf else pinf
  else if x.isZero || y.isZero then
    if x.isNeg ≠ y.isNeg then mzero else pzero
  else fl (x.toRat * y.toRat)

/-- IEEE binary64 division. -/
def divD (x y : Doub) : Doub :=
  if x.isNaN || y.isNaN then qnan
  else if x.isInf then
    if y.isInf then qnan
    else if x.isNeg ≠ y.isNeg then minf else pinf
  else if y.isInf then
    if x.isNeg ≠ y.isNeg then mzero else pzero
  else if y.isZero then
    if x.isZero then qnan
    else if x.isNeg ≠ y.isNeg then minf else pinf
  else if x.isZero then
    if x.isNeg ≠ y.isNeg then mzero else pzero
  else fl (x.toRat / y.toRat)

/-- IEEE `<` (false on unordered / NaN operands). -/
def ltD (x y : Doub) : Bool :=
  if x.isNaN || y.isNaN then false
  else if x.isInf then x.isNeg && !(y.isInf && y.isNeg)
  else if y.isInf then !y.isNeg
  else decide (x.toRat < y.toRat)

/-- IEEE `==` (false on NaN operands; +0 == -0). -/
def eqD (x y : Doub) : Bool :=
  if x.isNaN || y.isNaN then false
  else if x.isInf || y.isInf then x.isInf && y.isInf && (x.isNeg = y.isNeg)
  else decide (x.toRat = y.toRat)

/-- int64 → double conversion (rounds to nearest even). -/
def intToD (n : Int) : Doub := fl (mkRat n 1)

/-- Truncate a finite double toward zero. -/
def truncToInt (x : Doub) : Int := x.toRat.num / (x.toRat.den : Int)

/-- The C conversion `(int)x` for a 32-bit int: truncation toward zero,
undefined (modeled as `none`) when the integral part is not
representable (C11 6.3.1.4p1) or the operand is NaN/Inf. -/
def castInt32 (x : Doub) : Option Int :=
  if x.isFinite then
    let t := truncToInt x
    if -(2 ^ 31) ≤ t ∧ t < 2 ^ 31 then some t else none
  else none

def one : Doub := fl 1
def half : Doub := fl (1/2 : Rat)

/-! ## The trigonometric kernel sncs1cs -/

/-- Result triple of the kernel: sine, cosine, 1-cosine. -/
structure SinCos1Cos where
  sin : Doub
  cos : Doub
  omc : Doub
deriving DecidableEq

/-- Polynomial coefficients `sc[]` of sncs1cs (double precision). -/
def sc0 : Doub := fl (1.58962301576546568060e-10 : Rat)
def sc1 : Doub := fl (-2.50507477628578072866e-8 : Rat)
def sc2 : Doub := fl (2.75573136213857245213e-6 : Rat)
def sc3 : Doub := fl (-1.98412698295895385996e-4 : Rat)
def sc4 : Doub := fl (8.33333333332211858878e-3 : Rat)
def sc5 : Doub := fl (-1.66666666666666307295e-1 : Rat)

/-- Polynomial coefficients `cc[]` of sncs1cs. -/
def cc0 : Doub := fl (-1.13585365213876817300e-11 : Rat)
def cc1 : Doub := fl (2.08757008419747316778e-9 : Rat)
def cc2 : Doub := fl (-2.75573141792967388112e-7 : Rat)
def cc3 : Doub := fl (2.48015872888517045348e-5 : Rat)
def cc4 : Doub := fl (-1.38888888888730564116e-3 : Rat)
def cc5 : Doub := fl (4.16666666666665929218e-2 : Rat)

/-- Extended-precision decomposition of pi/4 used for range reduction. -/
def DP1 : Doub := fl (7.85398125648498535156e-1 : Rat)
def DP2 : Doub := fl (3.77489470793079817668e-8 : Rat)
def DP3 : Doub := fl (2.69515142907905952645e-15 : Rat)

def fourOverPi : Doub := fl (1.27323954473516268615 : Rat)

/-- `((((sc[0]*zz + sc[1])*zz + sc[2])*zz + sc[3])*zz + sc[4])*zz + sc[5]`. -/
def polyS (zz : Doub) : Doub :=
  addD (mulD (addD (mulD (addD (mulD (addD (mulD (addD (mulD sc0 zz) sc1) zz)
    sc2) zz) sc3) zz) sc4) zz) sc5

/-- Same Horner scheme over the `cc[]` coefficients. -/
def polyC (zz : Doub) : Doub :=
  addD (mulD (addD (mulD (addD (mulD (addD (mulD (addD (mulD cc0 zz) cc1) zz)
    cc2) zz) cc3) zz) cc4) zz) cc5

/-- `if (x < 0) x = -x;` -/
def absArg (x : Doub) : Doub := if ltD x pzero then negD x else x

/-- The octant computation `j = (mint_t)(x * fourOverPi)` applied to the
sign-stripped argument; `none` when the C int conversion is undefined. -/
def octJ (x : Doub) : Option Int := castInt32 (mulD (absArg x) fourOverPi)

/-- The C increment `j += 1` of a 32-bit signed int: truncation-free
when the successor is representable, undefined behavior on overflow
(signed overflow, C11 6.5p5), modeled as `none`. -/
def incInt32 (j : Int) : Option Int :=
  if -(2 ^ 31) ≤ j + 1 ∧ j + 1 < 2 ^ 31 then some (j + 1) else none

/-- The body of sncs1cs after special cases and sign stripping, for a
nonnegative argument `ax` whose octant index `j0` is known.  Returns the
assembled triple together with the octant sign flip (the `sign = -sign`
of the `j > 3` branch); the caller xors that flag with the argument's
sign bit, which is equivalent to the C code's single `sign` variable
because negation is an involution.  `none` when the parity adjustment
`j += 1` overflows the 32-bit int (j0 = 2^31 - 1, reachable while the
cast itself is defined): undefined behavior in the source. -/
def sncs1csPos (ax : Doub) (j0 : Int) : Option (SinCos1Cos × Bool) :=
  -- map zeros to origin: if (j & 1) { j += 1; y += 1; }
  match (if j0 % 2 = 1 then incInt32 j0 else some j0) with
  | none => none
  | some j1 =>
  let y0 := intToD j0
  let y := if j0 % 2 = 1 then addD y0 one else y0
  -- j = j & 7 (j is nonnegative here)
  let j2 := j1 % 8
  -- reflect in x axis: if (j > 3) { sign = -sign; csign = -csign; j -= 4; }
  let oflip : Bool := decide (3 < j2)
  let j3 := if 3 < j2 then j2 - 4 else j2
  -- if (j > 1) csign = -csign;   (csign starts at +1, i.e. `false` = positive)
  let csign : Bool := if 1 < j3 then !oflip else oflip
  -- extended precision modular arithmetic
  let z := subD (subD (subD ax (mulD y DP1)) (mulD y DP2)) (mulD y DP3)
  let zz := mulD z z
  let rsin := addD z (mulD (mulD zz z) (polyS zz))
  let romc := subD (mulD half zz) (mulD (mulD zz zz) (polyC zz))
  let r :=
    if j3 = 1 ∨ j3 = 2 then
      let rcos := if csign then negD rsin else rsin
      SinCos1Cos.mk (subD one romc) rcos (subD one rcos)
    else if csign then
      let rcos := subD romc one
      SinCos1Cos.mk rsin rcos (subD one rcos)
    else
      SinCos1Cos.mk rsin (subD one romc) romc
  some (r, oflip)

/-- The trigonometric kernel `sncs1cs` of commonNumericFunctions.spad:
sine, cosine and 1-cosine of one double.  `none` exactly when the C
code's int arithmetic is undefined behavior: the octant conversion
`(mint_t)(x * fourOverPi)` overflows, or the parity adjustment `j += 1`
increments INT_MAX. -/
def sncs1cs (x : Doub) : Option SinCos1Cos :=
  if eqD x pzero then some ⟨x, one, pzero⟩
  else if x.isNaN then some ⟨x, x, x⟩
  else if x.isInf then some ⟨subD x x, subD x x, subD x x⟩
  else
    match octJ x with
    | none => none
    | some j0 =>
      match sncs1csPos (absArg x) j0 with
      | none => none
      | some ro =>
        let negsin := xor (ltD x pzero) ro.2
        some (if negsin then { ro.1 with sin := negD ro.1.sin } else ro.1)

/-! ## The ULP-distance metric ud -/

/-- Wrap an unsigned 64-bit value into the signed int64 range (the
implementation-defined uint64 → int64 conversion of the compiler). -/
def toI64 (u : Nat) : Int := if u < 2 ^ 63 then (u : Int) else (u : Int) - 2 ^ 64

/-- Greatest int64, the NaN sentinel `(int64)(~0UL >> 1)`. -/
def maxI64 : Int := 2 ^ 63 - 1

/-- Wrap an Int into int64 (the int64 arithmetic of the C code; signed
overflow does not occur on any input the program produces). -/
def wrap64 (n : Int) : Int := (n + 2 ^ 63) % 2 ^ 64 - 2 ^ 63

/-- ULP distance `ud` between two doubles, on bit patterns: the NaN
sentinel, then magnitude arithmetic on same-sign or opposite-sign
reinterpretations, exactly as the uint64 arithmetic of the source. -/
def ud (x y : Doub) : Int :=
  if x.isNaN || y.isNaN then maxI64
  else
    let a := x.bits
    let b := y.bits
    if a / 2 ^ 63 = b / 2 ^ 63 then
      -- a = a - b (uint64); if top bit set, return -a, else a
      let u := (a + 2 ^ 64 - b) % 2 ^ 64
      if 2 ^ 63 ≤ u then toI64 ((2 ^ 64 - u) % 2 ^ 64) else (u : Int)
    else
      -- (int64)(a - (1UL << 63) + b)
      toI64 ((a + b + 2 ^ 63) % 2 ^ 64)

/-! ## Score engine, evaluator gating, aggregation -/

/-- The {old, new, accurate} record of one function at one point. -/
structure FuncVal where
  old : Doub
  new : Doub
  accurate : Doub
deriving DecidableEq

/-- The calloc'd, never-written state of a funcVal slot. -/
def nullFV : FuncVal := ⟨pzero, pzero, pzero⟩

def interesting (d : Int) : Bool := d ≠ 0

/-- `isNull`: the old and new values compare equal as doubles. -/
def isNull (v : FuncVal) : Bool := eqD v.old v.new

/-- The threshold `L` of quiteInteresting. -/
def Lthresh : Doub := fl (1e-7 : Rat)

/-- `quiteInteresting`: `some true` = "better", `some false` = "worse ",
`none` = nil (no diagnostic line). -/
def quiteInteresting (v : FuncVal) : Option Bool :=
  let ac := ud v.old v.accurate
  let bc := ud v.new v.accurate
  if ltD Lthresh (divD (intToD (wrap64 (ac - bc))) (intToD bc)) then some true
  else if ltD Lthresh (divD (intToD (wrap64 (bc - ac))) (intToD ac)) then some false
  else none

/-- The (iscore, fscore) pair of scoresOf. -/
structure IFScor where
  iscor : Int
  fscor : Doub
deriving DecidableEq

def scoresOf (v : FuncVal) : IFScor :=
  let ac := ud v.old v.accurate
  let bc := ud v.new v.accurate
  let i := wrap64 (ac - bc)
  ⟨i, divD (intToD i) (intToD bc)⟩

/-- Result of processing one (point, function) slot in
checkSinCosOmcInPoint: the stored funcVal (still `nullFV` when the slot
was skipped), whether FricasFloatEval was invoked for it, and the
diagnostic verdict printed (none = no line). -/
structure ProcOut where
  stored : FuncVal
  oracleCalled : Bool
  diag : Option Bool
deriving DecidableEq

/-- One iteration of the per-function loop of checkSinCosOmcInPoint,
abstracted over the Oracle's answer: fetch `accurate` and consider a
diagnostic line only when `ud old new` is interesting. -/
def processFuncVal (oracleResult : Doub) (old new : Doub) : ProcOut :=
  if interesting (ud old new) then
    let v : FuncVal := ⟨old, new, oracleResult⟩
    ⟨v, true, quiteInteresting v⟩
  else ⟨nullFV, false, none⟩

/-- One improvements/worsenings accumulator. -/
structure MicroReport where
  count : Nat
  max : Int
  maxScor : Doub
  mean2 : Doub
deriving DecidableEq

def zeroMicro : MicroReport := ⟨0, 0, pzero, pzero⟩

/-- `updateMicroReport`. -/
def updateMicroReport (r : MicroReport) (iS : Int) (fS : Doub) : MicroReport :=
  { count := r.count + 1
    mean2 := addD r.mean2 (mulD fS fS)
    max := if (0 ≤ iS ∧ r.max < iS) ∨ (iS ≤ 0 ∧ iS ≤ r.max) then iS else r.max
    maxScor := if ltD (absD r.maxScor) (absD fS) then fS else r.maxScor }

/-- Per-range, per-function report. -/
structure RangeReport where
  limits0 : Doub
  limits1 : Doub
  improvements : MicroReport
  worsenings : MicroReport
  mean1 : Doub
deriving DecidableEq

def zeroRR : RangeReport := ⟨pzero, pzero, zeroMicro, zeroMicro, pzero⟩

/-- One step of main's per-range scoring loop for one function:
`none` = no rangeReport exists yet for this range. -/
def aggStep (st : Option RangeReport) (v : FuncVal) : Option RangeReport :=
  if isNull v then st
  else
    let s := scoresOf v
    if s.iscor = 0 then st
    else
      let r0 := st.getD zeroRR
      let r1 :=
        if 0 < s.iscor then
          { r0 with improvements := updateMicroReport r0.improvements s.iscor s.fscor }
        else
          { r0 with worsenings := updateMicroReport r0.worsenings s.iscor s.fscor }
      some { r1 with mean1 := addD r1.mean1 s.fscor }

/-- Fueled Newton iteration for the integer square root. -/
def isqrtGo : Nat → Nat → Nat → Nat
  | 0, _, g => g
  | fuel + 1, n, g =>
    let g1 := (g + n / g) / 2
    if g1 < g then isqrtGo fuel n g1 else g

/-- Floor of the square root of a natural number (executable, fueled). -/
def isqrtF (n : Nat) : Nat :=
  if n = 0 then 0 else isqrtGo 512 n (2 ^ (log2F 8192 n / 2 + 1))

/-- Bit pattern of the correctly rounded square root of the positive
rational n/d (result of a finite positive double, hence never subnormal
and never overflowing). -/
def sqrtPosBits (n d : Nat) : Nat :=
  let eq2 := ratLog2 n d
  let e : Int := eq2.fdiv 2
  let g : Int := e - 52
  let A := if g ≤ 0 then n * 2 ^ (2 * (-g).toNat) else n
  let B := if g ≤ 0 then d else d * 2 ^ (2 * g.toNat)
  let m0 := isqrtF (A / B)
  let T := B * (4 * m0 ^ 2 + 4 * m0 + 1)
  let m1 := if T < 4 * A then m0 + 1 else if 4 * A < T then m0
    else if m0 % 2 = 1 then m0 + 1 else m0
  let m := if m1 = 2 ^ 53 then 2 ^ 52 else m1
  let E := if m1 = 2 ^ 53 then e + 1 else e
  (E + 1023).toNat * 2 ^ 52 + (m - 2 ^ 52)

/-- IEEE binary64 square root. -/
def sqrtD (x : Doub) : Doub :=
  if x.isNaN then qnan
  else if x.isZero then x
  else if x.isNeg then qnan
  else if x.isInf then pinf
  else Doub.ofBits (sqrtPosBits x.toRat.num.natAbs x.toRat.den)

/-- Finalization of one rangeReport at the end of main's scoring loop:
record the range limits, turn each mean2 into a quadratic mean, and
divide the fscore sum by the total contributing-point count. -/
def finalizeRR (lim0 lim1 : Doub) (r : RangeReport) : RangeReport :=
  { r with
    limits0 := lim0
    limits1 := lim1
    improvements := { r.improvements with
      mean2 := sqrtD (divD r.improvements.mean2 (intToD r.improvements.count)) }
    worsenings := { r.worsenings with
      mean2 := sqrtD (divD r.worsenings.mean2 (intToD r.worsenings.count)) }
    mean1 := divD r.mean1 (intToD ((r.improvements.count : Int) + r.worsenings.count)) }

/-! ## The sample generator of main/testRange -/

/-- `nextafter(x, posInf)`. -/
def nextUp (x : Doub) : Doub :=
  if x.isNaN then x
  else if x = pinf then x
  else if x.isZero then Doub.ofBits 1
  else if x.isNeg then Doub.ofBits (x.bits - 1)
  else Doub.ofBits (x.bits + 1)

/-- k-fold application of nextUp. -/
def nextIter : Nat → Doub → Doub
  | 0, x => x
  | k + 1, x => nextUp (nextIter k x)

def fourPiD : Doub := fl (12.5663706143591729539 : Rat)
def stepD : Doub := fl (0.03125 : Rat)

/-- The `(int)((fourPi + 0.5)/step + 0.5)` computation of main. -/
def halfRanges : Option Int :=
  castInt32 (addD (divD (addD fourPiD half) stepD) half)

/-- Number of ranges, `2*(int)((fourPi + 0.5)/step + 0.5) + 1`. -/
def sizeN : Nat := (2 * (halfRanges.getD 0) + 1).toNat

/-- Start value of range i, `-fourPi + step*i`. -/
def startOf (i : Nat) : Doub := addD (negD fourPiD) (mulD stepD (intToD i))

/-- A range as testRange walks it: PointsInOneRange = 32 points starting
at `x`, each the nextafter-successor of the previous; `limits[1]` is the
point reached after the final step. -/
structure SampleRange where
  start : Doub
  points : List Doub
  endLimit : Doub
deriving DecidableEq

def mkRange (x : Doub) : SampleRange :=
  ⟨x, (List.range 32).map (fun k => nextIter k x), nextIter 32 x⟩

/-- The ordered sequence of ranges produced by main's loop. -/
def genRanges : List SampleRange :=
  (List.range sizeN).map (fun i => mkRange (startOf i))

/-! ## Proof infrastructure -/

attribute [local semireducible] Rat.add Rat.sub Rat.mul Rat.inv Rat.ofScientific

set_option maxRecDepth 16384
set_option exponentiation.threshold 2000
set_option maxHeartbeats 2000000

theorem pow52 : (2 : Nat) ^ 52 = 4503599627370496 := rfl

theorem pow63 : (2 : Nat) ^ 63 = 9223372036854775808 := rfl

theorem pow64 : (2 : Nat) ^ 64 = 18446744073709551616 := rfl

theorem Doub.eq_iff {x y : Doub} : x = y ↔ x.bits = y.bits := by
  cases x; cases y; simp

theorem isFinite_not_isNaN (x : Doub) (h : x.isFinite = true) : x.isNaN = false := by
  unfold Doub.isFinite at h
  unfold Doub.isNaN
  simp_all

theorem isFinite_not_isInf (x : Doub) (h : x.isFinite = true) : x.isInf = false := by
  unfold Doub.isFinite at h
  unfold Doub.isInf
  simp_all

theorem ud_self (x : Doub) (h : x.isNaN = false) : ud x x = 0 := by
  unfold ud
  simp [h]

/-! ## Claim C2: ud is symmetric, not anti-symmetric -/

/-- Claim C2, counterexample: `ud` is not anti-symmetric.  For x = 1.0
and y the next double up, ud gives +1 in both argument orders (the
same-sign branch returns the magnitude of the difference), while
anti-symmetry would force opposite signs. -/
theorem claim2_counterexample :
    ud one (Doub.ofBits 4607182418800017409) = 1 ∧
    ud (Doub.ofBits 4607182418800017409) one = 1 ∧
    ¬ ud one (Doub.ofBits 4607182418800017409) =
      -ud (Doub.ofBits 4607182418800017409) one :=
  ⟨by decide, by decide, by decide⟩

/-- Claim C2, amended: the ULP-distance function ud is symmetric,
ud x y = ud y x for every pair of doubles (rather than anti-symmetric as
claimed). -/
theorem claim2_theorem (x y : Doub) : ud x y = ud y x := by
  unfold ud toI64 maxI64
  have ha := x.isLt
  have hb := y.isLt
  rw [pow64] at ha hb
  by_cases hx : x.isNaN <;> by_cases hy : y.isNaN <;>
    simp only [hx, hy, Bool.or_self, Bool.true_or, Bool.or_true, Bool.false_or,
      if_true, if_false, Bool.false_eq_true, ite_true, ite_false]
  rw [Nat.add_comm y.bits x.bits]
  simp only [pow63, pow64]
  split_ifs <;> omega

/-! ## Claim C6: ud on identical arguments and on signed zeros -/

/-- Claim C6: ud returns 0 on identical non-NaN arguments, and collapses
the two signed zeros to distance 0 in both orders. -/
theorem claim6_theorem :
    (∀ x : Doub, x.isNaN = false → ud x x = 0) ∧
    ud pzero mzero = 0 ∧ ud mzero pzero = 0 :=
  ⟨fun x hx => ud_self x hx, by decide, by decide⟩

/-- Witness for C6 at x = 1.0. -/
theorem claim6_witness : one.isNaN = false ∧ ud one one = 0 :=
  ⟨by decide, claim6_theorem.1 one (by decide)⟩

/-! ## Claim C5: special values of sncs1cs -/

/-- Claim C5: sncs1cs(+0) = (+0, 1, 0) and sncs1cs(-0) = (-0, 1, 0)
(sign of zero preserved in the sine component); a NaN input yields NaN
in all three components; +Inf and -Inf yield NaN in all three
components. -/
theorem claim5_theorem :
    sncs1cs pzero = some ⟨pzero, one, pzero⟩ ∧
    sncs1cs mzero = some ⟨mzero, one, pzero⟩ ∧
    (∀ x : Doub, x.isNaN = true → ∃ r, sncs1cs x = some r ∧
      r.sin.isNaN = true ∧ r.cos.isNaN = true ∧ r.omc.isNaN = true) ∧
    (sncs1cs pinf).map (fun r => r.sin.isNaN && r.cos.isNaN && r.omc.isNaN) = some true ∧
    (sncs1cs minf).map (fun r => r.sin.isNaN && r.cos.isNaN && r.omc.isNaN) = some true := by
  refine ⟨by decide, by decide, ?_, by decide, by decide⟩
  intro x hx
  have h0 : eqD x pzero = false := by
    unfold eqD
    simp [hx]
  refine ⟨⟨x, x, x⟩, ?_, hx, hx, hx⟩
  unfold sncs1cs
  simp [h0, hx]

/-- Witness for C5's NaN clause at the canonical quiet NaN. -/
theorem claim5_witness :
    qnan.isNaN = true ∧ ∃ r, sncs1cs qnan = some r ∧
      r.sin.isNaN = true ∧ r.cos.isNaN = true ∧ r.omc.isNaN = true :=
  ⟨by decide, claim5_theorem.2.2.1 qnan (by decide)⟩

/-! ## Claim C3: totality of sncs1cs -/

/-- Claim C3, counterexample: the octant computation
`j = (mint_t)(x * fourOverPi)` is not well-defined for every finite x,
and neither is the int arithmetic that follows it.  At the finite input
x = 2^31 the product is about 2.73e9, whose integral part does not fit
in a 32-bit int, so the conversion is undefined behavior (C11
6.3.1.4p1).  And at the finite input x = 1686629713.0 the conversion
itself is defined and yields j = 2^31 - 1 = INT_MAX, which is odd, so
the subsequent parity adjustment `j += 1` is signed 32-bit overflow,
also undefined behavior (C11 6.5p5). -/
theorem claim3_counterexample :
    ((Doub.ofBits 4746794007248502784).isFinite = true ∧
      octJ (Doub.ofBits 4746794007248502784) = none ∧
      sncs1cs (Doub.ofBits 4746794007248502784) = none) ∧
    ((Doub.ofBits 4744861045745516544).isFinite = true ∧
      octJ (Doub.ofBits 4744861045745516544) = some 2147483647 ∧
      sncs1cs (Doub.ofBits 4744861045745516544) = none) :=
  ⟨⟨by decide, by decide, by decide⟩, ⟨by decide, by decide, by decide⟩⟩

/-- Claim C3, amended: sncs1cs is well-defined and returns a
(sin, cos, omc) triple for NaN, the infinities, the zeros, and every
finite x whose int bookkeeping is defined: the octant computation
`(mint_t)(x * fourOverPi)` yields a value j representable in a 32-bit
int, and, when that j is odd, the parity adjustment `j += 1` does not
overflow (j is not INT_MAX); every other step of the kernel is total. -/
theorem claim3_theorem (x : Doub) (hf : x.isFinite = true) (j : Int)
    (hj : octJ x = some j) (hinc : j % 2 = 1 → (incInt32 j).isSome = true) :
    (sncs1cs x).isSome = true := by
  unfold sncs1cs
  by_cases h0 : eqD x pzero = true
  · simp [h0]
  · have h0' : eqD x pzero = false := by simpa using h0
    have hn := isFinite_not_isNaN x hf
    have hi := isFinite_not_isInf x hf
    simp only [h0', hn, hi, Bool.false_eq_true, if_false, hj]
    unfold sncs1csPos
    by_cases hp : j % 2 = 1
    · obtain ⟨j1, hj1⟩ := Option.isSome_iff_exists.1 (hinc hp)
      simp [hp, hj1]
    · simp [hp]

/-- Witness for C3 at x = 1.0, whose octant index 1 is odd. -/
theorem claim3_witness :
    one.isFinite = true ∧ octJ one = some 1 ∧
    ((1 : Int) % 2 = 1 → (incInt32 1).isSome = true) ∧
    (sncs1cs one).isSome = true :=
  ⟨by decide, by decide, by decide,
    claim3_theorem one (by decide) 1 (by decide) (by decide)⟩

/-! ## Claim C4: bit-equal old/new never trigger the Oracle -/

/-- Claim C4, counterexample: "bit-for-bit equal implies the Oracle is
never called" fails when old and new are the same NaN pattern: the gate
is `ud old new != 0`, and ud of two NaNs is the sentinel 2^63 - 1, so
the Oracle value is fetched even though old and new are bit-for-bit
equal. -/
theorem claim4_counterexample :
    interesting (ud qnan qnan) = true ∧
    (processFuncVal pzero qnan qnan).oracleCalled = true :=
  ⟨by decide, by decide⟩

/-- Claim C4, amended: for every sample point and tracked function, if
the reference result old and the kernel result new are bit-for-bit
equal and not NaN, the Oracle is never called for that slot, no
accurate value is stored, no diagnostic is emitted, and the untouched
(null) slot contributes nothing to any aggregation step. -/
theorem claim4_theorem (oracleResult old new : Doub) (heq : old = new)
    (hn : old.isNaN = false) :
    processFuncVal oracleResult old new = ⟨nullFV, false, none⟩ ∧
    (∀ st, aggStep st nullFV = st) := by
  subst heq
  constructor
  · simp only [processFuncVal, ud_self old hn, interesting]
    simp
  · intro st
    simp only [aggStep]
    rw [if_pos (by decide : isNull nullFV = true)]

/-- Witness for C4 with old = new = 1.0. -/
theorem claim4_witness :
    one.isNaN = false ∧
    processFuncVal pzero one one = ⟨nullFV, false, none⟩ ∧
    (∀ st, aggStep st nullFV = st) :=
  ⟨by decide, (claim4_theorem pzero one one rfl (by decide)).1,
    (claim4_theorem pzero one one rfl (by decide)).2⟩

/-! ## Claim C10: Oracle-failure sentinel points are inert -/

/-- Claim C10: when the accurate field is NaN (the Oracle-failure
sentinel), both ULP distances are the sentinel maximum, the iscore is
exactly 0, quiteInteresting returns nil (no diagnostic line), and the
point leaves every aggregation state unchanged, regardless of old and
new. -/
theorem claim10_theorem (v : FuncVal) (hacc : v.accurate.isNaN = true) :
    ud v.old v.accurate = maxI64 ∧ ud v.new v.accurate = maxI64 ∧
    (scoresOf v).iscor = 0 ∧ quiteInteresting v = none ∧
    (∀ st, aggStep st v = st) := by
  have h1 : ud v.old v.accurate = maxI64 := by unfold ud; simp [hacc]
  have h2 : ud v.new v.accurate = maxI64 := by unfold ud; simp [hacc]
  have hsc : scoresOf v = ⟨0, pzero⟩ := by
    simp only [scoresOf, h1, h2]
    decide
  have hqi : quiteInteresting v = none := by
    simp only [quiteInteresting, h1, h2]
    decide
  refine ⟨h1, h2, by rw [hsc], hqi, ?_⟩
  intro st
  simp only [aggStep]
  by_cases hnull : isNull v = true
  · simp [hnull]
  · simp [hnull, hsc]

/-- Witness for C10 at old = 1.0, new = +0, accurate = NaN. -/
theorem claim10_witness :
    (FuncVal.mk one pzero qnan).accurate.isNaN = true ∧
    (scoresOf (FuncVal.mk one pzero qnan)).iscor = 0 ∧
    quiteInteresting (FuncVal.mk one pzero qnan) = none :=
  ⟨by decide, (claim10_theorem (FuncVal.mk one pzero qnan) (by decide)).2.2.1,
    (claim10_theorem (FuncVal.mk one pzero qnan) (by decide)).2.2.2.1⟩

/-! ## Claim C1: cos + omc == 1 -/

theorem dy_zero (e : Int) : dy 0 e = 0 := by
  unfold dy
  split <;> simp

theorem toRat_of_isZero (x : Doub) (h : x.isZero = true) : x.toRat = 0 := by
  unfold Doub.isZero at h
  simp only [Bool.and_eq_true, decide_eq_true_eq] at h
  unfold Doub.toRat
  rw [if_pos h.1, h.2]
  simp [dy_zero]

/-- Claim C1, counterexample: the triple returned by sncs1cs does not
always satisfy cos + omc == 1 under one double addition.  At
x = 3.141590000032321 (bit pattern 4614256650576765627) the kernel's
final complement `omc = 1 - cos` rounds, and the subsequent addition
cos + omc yields the predecessor of 1 (1 - 2^-53), not 1. -/
theorem claim1_counterexample :
    sncs1cs (Doub.ofBits 4614256650576765627) =
      some ⟨Doub.ofBits 4523375961685904593, Doub.ofBits 13830554455654761505,
            Doub.ofBits 4611686018427372048⟩ ∧
    addD (Doub.ofBits 13830554455654761505) (Doub.ofBits 4611686018427372048) =
      Doub.ofBits 4607182418800017407 ∧
    ¬ addD (Doub.ofBits 13830554455654761505) (Doub.ofBits 4611686018427372048) = one :=
  ⟨by decide, by decide, by decide⟩

/-- Claim C1, amended: whenever the cos and omc fields returned by
sncs1cs are finite exact complements (omc = 1 - cos as exact rationals,
i.e. the final recomputation `omc = 1 - cos` did not round), one double
addition of cos and omc yields exactly 1.0; the addition can fall one
ULP short of 1 exactly when that final complement rounds. -/
theorem claim1_theorem (x : Doub) (r : SinCos1Cos) (_hx : sncs1cs x = some r)
    (hc : r.cos.isFinite = true) (ho : r.omc.isFinite = true)
    (hrel : r.omc.toRat = 1 - r.cos.toRat) :
    addD r.cos r.omc = one := by
  have hsum : r.cos.toRat + r.omc.toRat = 1 := by rw [hrel]; ring
  have hcn := isFinite_not_isNaN _ hc
  have hon := isFinite_not_isNaN _ ho
  have hci := isFinite_not_isInf _ hc
  have hoi := isFinite_not_isInf _ ho
  simp only [addD, hcn, hon, hci, hoi, Bool.or_self, Bool.false_eq_true, if_false]
  by_cases hz : (r.cos.isZero && r.omc.isZero) = true
  · exfalso
    simp only [Bool.and_eq_true] at hz
    rw [toRat_of_isZero _ hz.1, toRat_of_isZero _ hz.2] at hsum
    norm_num at hsum
  · simp only [hz, Bool.false_eq_true, if_false]
    rw [hsum]
    norm_num
    rfl

/-- Witness for C1 at x = 5.3, where the reduced cosine lies in [1/2, 1]
so the final complement is exact by Sterbenz's lemma. -/
theorem claim1_witness :
    sncs1cs (Doub.ofBits 4617653287933653811) =
      some ⟨Doub.ofBits 13829043655085396539, Doub.ofBits 4603168579652956885,
            Doub.ofBits 4601699298212026966⟩ ∧
    (Doub.ofBits 4601699298212026966).toRat = 1 - (Doub.ofBits 4603168579652956885).toRat ∧
    addD (Doub.ofBits 4603168579652956885) (Doub.ofBits 4601699298212026966) = one :=
  ⟨by decide, by decide,
    claim1_theorem (Doub.ofBits 4617653287933653811)
      ⟨Doub.ofBits 13829043655085396539, Doub.ofBits 4603168579652956885,
       Doub.ofBits 4601699298212026966⟩
      (by decide) (by decide) (by decide) (by decide)⟩

/-! ## Claim C7: odd sine, even cosine and omc -/

theorem isNeg_iff (x : Doub) : x.isNeg = true ↔ 2 ^ 63 ≤ x.bits := by
  unfold Doub.isNeg Doub.sgn
  have hb := x.isLt
  rw [pow64] at hb
  rw [pow63]
  simp only [decide_eq_true_eq]
  omega

theorem bits_negD (x : Doub) :
    (negD x).bits = if 2 ^ 63 ≤ x.bits then x.bits - 2 ^ 63 else x.bits + 2 ^ 63 := by
  unfold negD Doub.ofBits
  have hb := x.isLt
  rw [pow64] at hb
  by_cases h : x.isNeg = true
  · have h2 := (isNeg_iff x).1 h
    rw [if_pos h, if_pos h2]
    simp only [pow63, pow64] at *
    omega
  · have h2 : ¬ 2 ^ 63 ≤ x.bits := fun hc => h ((isNeg_iff x).2 hc)
    rw [if_neg h, if_neg h2]
    simp only [pow63, pow64] at *
    omega

theorem negD_negD (x : Doub) : negD (negD x) = x := by
  rw [Doub.eq_iff, bits_negD, bits_negD]
  have hb := x.isLt
  simp only [pow63, pow64] at *
  split_ifs <;> omega

theorem expField_negD (x : Doub) : (negD x).expField = x.expField := by
  unfold Doub.expField
  rw [bits_negD]
  have hb := x.isLt
  simp only [pow52, pow63, pow64] at *
  norm_num
  split_ifs <;> omega

theorem mantField_negD (x : Doub) : (negD x).mantField = x.mantField := by
  unfold Doub.mantField
  rw [bits_negD]
  have hb := x.isLt
  simp only [pow52, pow63, pow64] at *
  split_ifs <;> omega

theorem isNeg_negD (x : Doub) : (negD x).isNeg = !x.isNeg := by
  have hb := x.isLt
  by_cases h : x.isNeg = true
  · have h2 := (isNeg_iff x).1 h
    rw [h]
    have : ¬ 2 ^ 63 ≤ (negD x).bits := by
      rw [bits_negD, if_pos h2]
      simp only [pow63, pow64] at *
      omega
    simp only [Bool.not_true]
    cases hcase : (negD x).isNeg
    · rfl
    · exact absurd ((isNeg_iff _).1 hcase) this
  · have h1 : x.isNeg = false := by simpa using h
    have h2 : ¬ 2 ^ 63 ≤ x.bits := fun hc => h ((isNeg_iff x).2 hc)
    rw [h1]
    have : 2 ^ 63 ≤ (negD x).bits := by
      rw [bits_negD, if_neg h2]
      simp only [pow63, pow64] at *
      omega
    simp only [Bool.not_false]
    exact (isNeg_iff _).2 this

theorem isNaN_negD (x : Doub) : (negD x).isNaN = x.isNaN := by
  unfold Doub.isNaN
  rw [expField_negD, mantField_negD]

theorem isInf_negD (x : Doub) : (negD x).isInf = x.isInf := by
  unfold Doub.isInf
  rw [expField_negD, mantField_negD]

theorem isFinite_negD (x : Doub) : (negD x).isFinite = x.isFinite := by
  unfold Doub.isFinite
  rw [expField_negD]

theorem dy_neg (n e : Int) : dy (-n) e = -dy n e := by
  unfold dy
  split_ifs
  · rw [neg_mul, ← Rat.neg_mkRat]
  · rw [← Rat.neg_mkRat]

theorem dy_negAdd (a b e : Int) : dy (-a + -b) e = -dy (b + a) e := by
  rw [show -a + -b = -(b + a) by ring, dy_neg]

theorem toRat_negD (x : Doub) : (negD x).toRat = -x.toRat := by
  unfold Doub.toRat
  rw [expField_negD, mantField_negD, isNeg_negD]
  by_cases he : x.expField = 0 <;> cases hneg : x.isNeg <;>
    simp [he, hneg, dy_neg, dy_negAdd]

theorem toRat_pzero : pzero.toRat = 0 := by decide

theorem eqD_pzero (x : Doub) (hf : x.isFinite = true) :
    eqD x pzero = decide (x.toRat = 0) := by
  unfold eqD
  rw [isFinite_not_isNaN x hf, isFinite_not_isInf x hf]
  rw [show pzero.isNaN = false from rfl, show pzero.isInf = false from rfl]
  simp [toRat_pzero]

theorem ltD_pzero (x : Doub) (hf : x.isFinite = true) :
    ltD x pzero = decide (x.toRat < 0) := by
  unfold ltD
  rw [isFinite_not_isNaN x hf, isFinite_not_isInf x hf]
  rw [show pzero.isNaN = false from rfl, show pzero.isInf = false from rfl]
  simp [toRat_pzero]

/-- Claim C7: the kernel is odd in sine and even in cosine and
one-minus-cosine, as bit-exact equalities, for every x it is tested on
(i.e. every finite double on which the kernel is defined): negating the
input leaves cos and omc bit-identical and negates the sine pattern. -/
theorem claim7_theorem (x : Doub) (hf : x.isFinite = true) (r : SinCos1Cos)
    (hr : sncs1cs x = some r) :
    ∃ q, sncs1cs (negD x) = some q ∧
      q.sin = negD r.sin ∧ q.cos = r.cos ∧ q.omc = r.omc := by
  have hfn : (negD x).isFinite = true := by rw [isFinite_negD]; exact hf
  have hnN := isFinite_not_isNaN x hf
  have hnI := isFinite_not_isInf x hf
  have hnN' := isFinite_not_isNaN _ hfn
  have hnI' := isFinite_not_isInf _ hfn
  by_cases h0 : eqD x pzero = true
  · have ht0 : x.toRat = 0 := by
      have h := eqD_pzero x hf
      rw [h0] at h
      exact of_decide_eq_true h.symm
    have h0' : eqD (negD x) pzero = true := by
      rw [eqD_pzero _ hfn, toRat_negD, ht0]
      decide
    unfold sncs1cs at hr
    rw [if_pos h0] at hr
    have hreq : r = ⟨x, one, pzero⟩ := (Option.some.inj hr).symm
    refine ⟨⟨negD x, one, pzero⟩, ?_, ?_, ?_, ?_⟩
    · unfold sncs1cs
      rw [if_pos h0']
    · rw [hreq]
    · rw [hreq]
    · rw [hreq]
  · have h0'' : eqD x pzero = false := by simpa using h0
    have htne : x.toRat ≠ 0 := by
      have h := eqD_pzero x hf
      rw [h0''] at h
      intro hc
      exact absurd (decide_eq_true hc) (by rw [← h]; simp)
    have h0' : eqD (negD x) pzero = false := by
      rw [eqD_pzero _ hfn, toRat_negD]
      simp [htne]
    have hlt : ltD (negD x) pzero = !ltD x pzero := by
      rw [ltD_pzero _ hfn, ltD_pzero _ hf, toRat_negD]
      rcases lt_trichotomy x.toRat 0 with h | h | h
      · have h2 : ¬ (-x.toRat < 0) := by simp; linarith
        simp [h, h2]
      · exact absurd h htne
      · have h2 : -x.toRat < 0 := by linarith
        simp [h2, not_lt.2 (le_of_lt h)]
    have habs : absArg (negD x) = absArg x := by
      unfold absArg
      rw [hlt]
      cases hcase : ltD x pzero <;> simp [negD_negD]
    have hoct : octJ (negD x) = octJ x := by
      unfold octJ
      rw [habs]
    cases hj : octJ x with
    | none =>
      simp only [sncs1cs, h0'', hnN, hnI, Bool.false_eq_true, if_false, hj] at hr
      exact absurd hr (by simp)
    | some j =>
      cases hp : sncs1csPos (absArg x) j with
      | none =>
        simp only [sncs1cs, h0'', hnN, hnI, Bool.false_eq_true, if_false, hj, hp] at hr
        exact absurd hr (by simp)
      | some ro =>
        simp only [sncs1cs, h0'', hnN, hnI, Bool.false_eq_true, if_false, hj, hp] at hr
        have hgoal : sncs1cs (negD x) =
            some (if xor (!ltD x pzero) ro.2
                  then { ro.1 with sin := negD ro.1.sin }
                  else ro.1) := by
          simp only [sncs1cs, h0', hnN', hnI', Bool.false_eq_true, if_false, hoct, hj,
            habs, hp, hlt]
        rw [← Option.some.inj hr]
        refine ⟨_, hgoal, ?_, ?_, ?_⟩ <;>
          cases hsg : ltD x pzero <;> cases hfl : ro.2 <;>
            simp [hsg, hfl, negD_negD]

/-- Witness for C7 at x = 1.0. -/
theorem claim7_witness :
    one.isFinite = true ∧
    sncs1cs one = some ⟨Doub.ofBits 4605754516372524270, Doub.ofBits 4603041830072026764,
      Doub.ofBits 4601952797373887208⟩ ∧
    ∃ q, sncs1cs (negD one) = some q ∧
      q.sin = negD (Doub.ofBits 4605754516372524270) ∧
      q.cos = Doub.ofBits 4603041830072026764 ∧
      q.omc = Doub.ofBits 4601952797373887208 :=
  ⟨by decide, by decide,
    claim7_theorem one (by decide)
      ⟨Doub.ofBits 4605754516372524270, Doub.ofBits 4603041830072026764,
       Doub.ofBits 4601952797373887208⟩ (by decide)⟩

/-! ## Claim C8: aggregation of iscores {+5, -2, 0} -/

/-- Claim C8: if a range holds, for one function, exactly three
scored-candidate points with iscores +5, -2 and 0, then the improvements
MicroReport ends with count 1 and max 5, the worsenings MicroReport with
count 1 and max -2, the point with iscore 0 changes nothing (dropping it
leaves the aggregation state identical), and the combined arithmetic
mean is finalized with denominator 1 + 1 = 2. -/
theorem claim8_theorem (v1 v2 v3 : FuncVal) (lim0 lim1 : Doub)
    (h1 : isNull v1 = false) (h2 : isNull v2 = false) (h3 : isNull v3 = false)
    (s1 : (scoresOf v1).iscor = 5) (s2 : (scoresOf v2).iscor = -2)
    (s3 : (scoresOf v3).iscor = 0) :
    ∃ r, [v1, v2, v3].foldl aggStep none = some r ∧
      r.improvements.count = 1 ∧ r.improvements.max = 5 ∧
      r.worsenings.count = 1 ∧ r.worsenings.max = -2 ∧
      [v1, v2, v3].foldl aggStep none = [v1, v2].foldl aggStep none ∧
      (r.improvements.count : Int) + r.worsenings.count = 2 ∧
      (finalizeRR lim0 lim1 r).mean1 = divD r.mean1 (intToD 2) := by
  simp only [List.foldl, aggStep, h1, h2, h3, s1, s2, s3, Bool.false_eq_true, if_false,
    Option.getD, updateMicroReport, zeroRR, zeroMicro]
  norm_num
  simp only [finalizeRR]
  norm_num

/-- Witness for C8: three concrete points around accurate = 1.0 whose
iscores are +5, -2 and 0. -/
theorem claim8_witness :
    (scoresOf ⟨Doub.ofBits 4607182418800017415, Doub.ofBits 4607182418800017410, one⟩).iscor = 5 ∧
    (scoresOf ⟨Doub.ofBits 4607182418800017409, Doub.ofBits 4607182418800017411, one⟩).iscor = -2 ∧
    (scoresOf ⟨Doub.ofBits 4607182418800017412, Doub.ofBits 4607182418800017404, one⟩).iscor = 0 ∧
    ∃ r, [(⟨Doub.ofBits 4607182418800017415, Doub.ofBits 4607182418800017410, one⟩ : FuncVal),
          ⟨Doub.ofBits 4607182418800017409, Doub.ofBits 4607182418800017411, one⟩,
          ⟨Doub.ofBits 4607182418800017412, Doub.ofBits 4607182418800017404, one⟩].foldl
            aggStep none = some r ∧
      r.improvements.count = 1 ∧ r.improvements.max = 5 ∧
      r.worsenings.count = 1 ∧ r.worsenings.max = -2 ∧
      [(⟨Doub.ofBits 4607182418800017415, Doub.ofBits 4607182418800017410, one⟩ : FuncVal),
       ⟨Doub.ofBits 4607182418800017409, Doub.ofBits 4607182418800017411, one⟩,
       ⟨Doub.ofBits 4607182418800017412, Doub.ofBits 4607182418800017404, one⟩].foldl
         aggStep none =
      [(⟨Doub.ofBits 4607182418800017415, Doub.ofBits 4607182418800017410, one⟩ : FuncVal),
       ⟨Doub.ofBits 4607182418800017409, Doub.ofBits 4607182418800017411, one⟩].foldl
         aggStep none ∧
      (r.improvements.count : Int) + r.worsenings.count = 2 ∧
      (finalizeRR pzero pzero r).mean1 = divD r.mean1 (intToD 2) :=
  ⟨by decide, by decide, by decide,
    claim8_theorem
      ⟨Doub.ofBits 4607182418800017415, Doub.ofBits 4607182418800017410, one⟩
      ⟨Doub.ofBits 4607182418800017409, Doub.ofBits 4607182418800017411, one⟩
      ⟨Doub.ofBits 4607182418800017412, Doub.ofBits 4607182418800017404, one⟩
      pzero pzero (by decide) (by decide) (by decide) (by decide) (by decide) (by decide)⟩

/-! ## Claim C9: the sample generator -/

/-- Claim C9: main's loop covers [-B, B] with B = 4*pi and step 1/32:
it produces exactly 2*round((B + 0.5)/s) + 1 = 2*418 + 1 = 837 ranges;
range i starts at -B + s*i, and each range consists of the 32
consecutive nextafter(-, +Inf) successors of its start value (the
endLimit being the 33rd value), for i running in order from 0 to 836. -/
theorem claim9_theorem :
    halfRanges = some 418 ∧
    (round ((fourPiD.toRat + 1 / 2) / stepD.toRat) : Int) = 418 ∧
    sizeN = 2 * 418 + 1 ∧
    genRanges.length = 837 ∧
    (∀ i : Nat, i < 837 → genRanges[i]? = some (mkRange (startOf i))) ∧
    (∀ s : Doub, (mkRange s).start = s ∧ (mkRange s).points.length = 32 ∧
      (∀ k : Nat, k < 32 → (mkRange s).points[k]? = some (nextIter k s)) ∧
      (∀ k : Nat, nextIter (k + 1) s = nextUp (nextIter k s)) ∧
      (mkRange s).endLimit = nextIter 32 s) := by
  refine ⟨by decide, by decide, by decide, ?_, ?_, ?_⟩
  · simp only [genRanges, List.length_map, List.length_range]
    decide
  · intro i hi
    have hs : i < sizeN := by
      have h : sizeN = 837 := by decide
      omega
    simp [genRanges, List.getElem?_map, List.getElem?_range, hs]
  · intro s
    refine ⟨rfl, by simp [mkRange], ?_, fun k => rfl, rfl⟩
    intro k hk
    simp [mkRange, List.getElem?_map, List.getElem?_range, hk]

/-- Witness for C9 at range 0, point 0. -/
theorem claim9_witness :
    (0 : Nat) < 837 ∧ genRanges[(0 : Nat)]? = some (mkRange (startOf 0)) ∧
    (0 : Nat) < 32 ∧ (mkRange (startOf 0)).points[(0 : Nat)]? = some (nextIter 0 (startOf 0)) :=
  ⟨by decide, claim9_theorem.2.2.2.2.1 0 (by decide), by decide,
    ((claim9_theorem.2.2.2.2.2 (startOf 0)).2.2.1 0 (by decide))⟩
